import Mathlib

/-!
Verification of the yaque persistent queue (`src/queue.rs`) against its
natural-language specification.

The development shallowly embeds the queue protocol:

* Bytes are `Nat` values; a segment file is a `List (Option Nat)` where a
  `none` entry models a byte whose read fails with an I/O error (used to
  inject read errors).  The filesystem is `Files : Nat → List (Option Nat)`,
  mapping a segment index to the contents of `{N}.q`.
* The sender (`Sender.write`, `Sender.send`, `Sender.cap_off_and_move`) is a
  pure state transformer on `SenderW` (queue state + files).  A payload whose
  length fails the `assert!(len < u32::MAX)` bound makes `write` return
  `none` (the panic).
* The receiver is modelled by `ReceiverS` (persisted `QueueState`, the tail
  follower's segment `fSeg` and offset `fPos`, the `maybe_header` micro
  checkpoint and the `read_and_unused` buffer).  Every receiver operation
  returns a `Step α`: an `RRes α` outcome (`ok`, `ioError` for a propagated
  `io::Result::Err`, `panicked` for an `expect`/`assert`, `blocked` for a
  future that suspends forever on a static filesystem), the resulting
  receiver, the resulting files, and a trace of durable events
  (state saves, follower openings, file removals).
* Awaitable timeouts are abstracted by a budget: `read_one_timeout` is given
  the number of further `read_one` completions the timeout still allows;
  exhausting the budget (or a read that would suspend) means the timeout
  future wins the `select`.
* `header.rs`, `state.rs` and `sync.rs` are not part of the sources; the
  header codec, `QueueState` helpers and the tail follower's `read_exact`
  are modelled from the spec (sections 4.1, 4.3 and 4.4), as noted on each
  definition.
-/

/-- Outcome of a receiver operation. `ok` is a normal return, `ioError` an
`io::Result::Err` propagated with `?`, `panicked` an `expect`/`assert`
failure, `blocked` a future that never resolves (awaiting bytes that are
never appended). -/
inductive RRes (α : Type) where
  | ok : α → RRes α
  | ioError : RRes α
  | panicked : RRes α
  | blocked : RRes α
  deriving Repr, DecidableEq

/-- Durable side effects performed by the receiver, in order. -/
inductive Event where
  | saveState : Nat → Nat → Event
  | openFollower : Nat → Event
  | removeFile : Nat → Event
  deriving Repr, DecidableEq

/-- The queue directory: segment index `N` maps to the bytes of `{N}.q`.
A `none` byte injects an I/O read error at that offset; a missing file is
the empty list (matching the create-on-open policy of both sides). -/
def Files : Type := Nat → List (Option Nat)

/-- The empty queue directory. -/
def emptyFiles : Files := fun _ => []

/-- Append bytes to the end of segment `seg` (the sender's append mode). -/
def appendSeg (f : Files) (seg : Nat) (bs : List (Option Nat)) : Files :=
  fun k => if k = seg then f k ++ bs else f k

/-- Replace the contents of segment `seg` (used to model `remove_file`). -/
def updateSeg (f : Files) (seg : Nat) (v : List (Option Nat)) : Files :=
  fun k => if k = seg then v else f k

/-- The value of a header EOF (`HEADER_EOF` in `queue.rs`). -/
def HEADER_EOF : List Nat := [255, 255, 255, 255]

/-- `HEADER_EOF` as written to a file. -/
def EOFw : List (Option Nat) := HEADER_EOF.map some

namespace Header

/-- Modelled from the spec (§4.1): the 4-byte header encodes the payload
length as a little-endian u32 (`Header::encode` in the missing
`header.rs`). -/
def encode (len : Nat) : List Nat :=
  [len % 256, len / 256 % 256, len / 65536 % 256, len / 16777216 % 256]

/-- Modelled from the spec (§4.1): `Header::decode` followed by
`Header::len` recovers the little-endian u32 payload length. -/
def decode (b : List Nat) : Nat :=
  match b with
  | [a, b, c, d] => a + 256 * b + 65536 * c + 16777216 * d
  | _ => 0

end Header

/-- Modelled from the spec (§3): the implementation-chosen segment rotation
threshold `SEGMENT_MAX` (a few megabytes; the missing `state.rs` owns the
constant). Its value is irrelevant to the theorems below. -/
def SEGMENT_MAX : Nat := 4194304

/-- The `(segment, position)` pair of `state.rs` (spec §4.4). -/
structure QueueState where
  segment : Nat
  position : Nat
  deriving Repr, DecidableEq

namespace QueueState

/-- Modelled from the spec (§4.4): `advance_position(n) → position += n`. -/
def advance_position (s : QueueState) (n : Nat) : QueueState :=
  { s with position := s.position + n }

/-- Modelled from the spec (§4.4): `advance_segment() → segment += 1;
position = 0`. -/
def advance_segment (s : QueueState) : QueueState :=
  { segment := s.segment + 1, position := 0 }

/-- Modelled from the spec (§4.4): `retreat_segment()` undoes the segment
increment of a failed advance. -/
def retreat_segment (s : QueueState) : QueueState :=
  { s with segment := s.segment - 1 }

/-- Modelled from the spec (§3, §4.4): `is_past_end()` compares `position`
to `SEGMENT_MAX`. -/
def is_past_end (s : QueueState) : Bool :=
  SEGMENT_MAX ≤ s.position

end QueueState

/-- The sender together with the queue directory it appends to. -/
structure SenderW where
  s : QueueState
  files : Files

namespace Sender

/-- `Sender::write`: asserts `len < u32::MAX`, then appends the 4-byte
header followed by the payload to the current segment's buffer and reports
`4 + len` written bytes.  `none` models the `assert!` panic on an oversized
payload. -/
def write (w : SenderW) (data : List Nat) : Option (Nat × SenderW) :=
  if data.length < 4294967295 then
    some (4 + data.length,
      { w with
          files := appendSeg w.files w.s.segment
            ((Header.encode data.length ++ data).map some) })
  else
    none

/-- `Sender::cap_off_and_move`: writes the EOF header to the current
segment, flushes, and advances to the next (freshly created) segment. -/
def cap_off_and_move (w : SenderW) : SenderW :=
  { s := QueueState.advance_segment w.s,
    files := appendSeg w.files w.s.segment EOFw }

/-- `Sender::send`: write, flush, advance the position by the written
count, and cap off and rotate the segment when past `SEGMENT_MAX`. -/
def send (w : SenderW) (data : List Nat) : Option SenderW :=
  match write w data with
  | none => none
  | some (written, w1) =>
    let w2 : SenderW := { w1 with s := QueueState.advance_position w1.s written }
    some (if QueueState.is_past_end w2.s then cap_off_and_move w2 else w2)

/-- A sequence of `Sender::send` calls. -/
def sendAll (w : SenderW) : List (List Nat) → Option SenderW
  | [] => some w
  | d :: ds =>
    match send w d with
    | none => none
    | some w1 => sendAll w1 ds

end Sender

/-- The receiver: persisted state, the tail follower's segment and offset,
the `maybe_header` checkpoint and the `read_and_unused` buffer. -/
structure ReceiverS where
  state : QueueState
  fSeg : Nat
  fPos : Nat
  maybe_header : Option (List Nat)
  read_and_unused : List (List Nat)
  deriving Repr, DecidableEq

/-- Result of a receiver operation: outcome, resulting receiver (the
`&mut self` after the call, also at an error or suspension point),
resulting files and the durable-event trace. -/
structure Step (α : Type) where
  res : RRes α
  rcv : ReceiverS
  fs : Files
  tr : List Event

/-- Sequencing of receiver operations; errors, panics and suspensions
short-circuit (the `?` operator / `.await` chain). -/
def Step.bind (s : Step α) (k : α → ReceiverS → Files → Step β) : Step β :=
  match s.res with
  | .ok a =>
    let t := k a s.rcv s.fs
    ⟨t.res, t.rcv, t.fs, s.tr ++ t.tr⟩
  | .ioError => ⟨.ioError, s.rcv, s.fs, s.tr⟩
  | .panicked => ⟨.panicked, s.rcv, s.fs, s.tr⟩
  | .blocked => ⟨.blocked, s.rcv, s.fs, s.tr⟩

/-- Modelled from the spec (§4.3): `TailFollower::read_exact` on a static
filesystem.  Bytes are consumed in order, so an error byte among the
available ones fails the read, and fewer than `n` available bytes suspend
the future until the file grows (forever, here). -/
def readExact (f : Files) (seg pos n : Nat) : RRes (List Nat) :=
  if (((f seg).drop pos).take n).any (fun b => b.isNone) then .ioError
  else if (((f seg).drop pos).take n).length < n then .blocked
  else .ok ((((f seg).drop pos).take n).filterMap id)

/-- The per-record byte length used for guard lengths:
`data.iter().map(|item| 4 + item.len()).sum()`. -/
def sumRecordLens (data : List (List Nat)) : Nat :=
  (data.map (fun item => 4 + item.length)).sum

/-- `RecvGuard`: the consumed byte count `len` and the delivered item. -/
structure RecvGuard (T : Type) where
  len : Nat
  item : T
  deriving Repr, DecidableEq

namespace Receiver

/-- `Receiver::advance`: advance the segment in state, durably save
(`saveOk` tells whether `persistence.save` succeeds), on failure retreat
the segment and propagate; on success open a follower on the new segment
and remove the old file. -/
def advance (saveOk : Bool) (r : ReceiverS) (f : Files) : Step Unit :=
  let s1 := QueueState.advance_segment r.state
  if saveOk then
    ⟨.ok (), { r with state := s1, fSeg := s1.segment, fPos := 0 },
      updateSeg f r.state.segment [],
      [Event.saveState s1.segment s1.position,
       Event.openFollower s1.segment,
       Event.removeFile r.state.segment]⟩
  else
    ⟨.ioError, { r with state := QueueState.retreat_segment s1 }, f, []⟩

/-- `Receiver::read_header`: reuse `maybe_header` if set; otherwise read 4
bytes, advance the segment on the EOF sentinel and re-read, then store the
header bytes and return the decoded length. -/
def read_header (saveOk : Bool) (r : ReceiverS) (f : Files) : Step Nat :=
  match r.maybe_header with
  | some h => ⟨.ok (Header.decode h), r, f, []⟩
  | none =>
    match readExact f r.fSeg r.fPos 4 with
    | .ioError => ⟨.ioError, r, f, []⟩
    | .panicked => ⟨.panicked, r, f, []⟩
    | .blocked => ⟨.blocked, r, f, []⟩
    | .ok hdr =>
      let r1 : ReceiverS := { r with fPos := r.fPos + 4 }
      if hdr = HEADER_EOF then
        (advance saveOk r1 f).bind (fun _ r2 f2 =>
          match readExact f2 r2.fSeg r2.fPos 4 with
          | .ioError => ⟨.ioError, r2, f2, []⟩
          | .panicked => ⟨.panicked, r2, f2, []⟩
          | .blocked => ⟨.blocked, r2, f2, []⟩
          | .ok hdr2 =>
            ⟨.ok (Header.decode hdr2),
              { r2 with fPos := r2.fPos + 4, maybe_header := some hdr2 }, f2, []⟩)
      else
        ⟨.ok (Header.decode hdr), { r1 with maybe_header := some hdr }, f, []⟩

/-- `Receiver::read_one`: read the header, then the payload
(`.expect("poisoned queue")` turns a payload read error into a panic),
clear `maybe_header` and push the payload onto `read_and_unused`. -/
def read_one (saveOk : Bool) (r : ReceiverS) (f : Files) : Step Unit :=
  (read_header saveOk r f).bind (fun len r1 f1 =>
    match readExact f1 r1.fSeg r1.fPos len with
    | .ok data =>
      ⟨.ok (),
        { r1 with
            fPos := r1.fPos + len,
            maybe_header := none,
            read_and_unused := r1.read_and_unused ++ [data] }, f1, []⟩
    | .ioError => ⟨.panicked, r1, f1, []⟩
    | .panicked => ⟨.panicked, r1, f1, []⟩
    | .blocked => ⟨.blocked, r1, f1, []⟩)

/-- `Receiver::read_one_timeout`: race `read_one` against the timeout
budget. A suspending read or an exhausted budget lets the timeout win
(`Ok(false)`); a completed read consumes budget and yields `Ok(true)`. -/
def read_one_timeout (saveOk : Bool) (budget : Nat) (r : ReceiverS) (f : Files) :
    Step (Bool × Nat) :=
  if budget = 0 then ⟨.ok (false, 0), r, f, []⟩
  else
    match read_one saveOk r f with
    | ⟨.ok _, r1, f1, t⟩ => ⟨.ok (true, budget - 1), r1, f1, t⟩
    | ⟨.blocked, r1, f1, t⟩ => ⟨.ok (false, 0), r1, f1, t⟩
    | ⟨.ioError, r1, f1, t⟩ => ⟨.ioError, r1, f1, t⟩
    | ⟨.panicked, r1, f1, t⟩ => ⟨.panicked, r1, f1, t⟩

/-- `Receiver::drain(n)`: pop up to `n` elements from the front of
`read_and_unused` (guarded by `n > 0` exactly as in the source); returns
the drained elements and the remaining buffer. -/
def drain (n : Nat) (q : List (List Nat)) : List (List Nat) × List (List Nat) :=
  if n = 0 then ([], q) else (q.take n, q.drop n)

/-- `Receiver::recv`: pop a buffered element, or `read_one` and pop; wrap
it in a guard of length `4 + data.len()`. -/
def recv (saveOk : Bool) (r : ReceiverS) (f : Files) :
    Step (RecvGuard (List Nat)) :=
  match r.read_and_unused with
  | d :: rest => ⟨.ok ⟨4 + d.length, d⟩, { r with read_and_unused := rest }, f, []⟩
  | [] =>
    (read_one saveOk r f).bind (fun _ r1 f1 =>
      match r1.read_and_unused with
      | d :: rest => ⟨.ok ⟨4 + d.length, d⟩, { r1 with read_and_unused := rest }, f1, []⟩
      | [] => ⟨.panicked, r1, f1, []⟩)

/-- `Receiver::recv_timeout`: like `recv`, but bounded by the timeout;
`Ok(None)` when the timeout elapses first. -/
def recv_timeout (saveOk : Bool) (budget : Nat) (r : ReceiverS) (f : Files) :
    Step (Option (RecvGuard (List Nat))) :=
  match r.read_and_unused with
  | d :: rest =>
    ⟨.ok (some ⟨4 + d.length, d⟩), { r with read_and_unused := rest }, f, []⟩
  | [] =>
    (read_one_timeout saveOk budget r f).bind (fun res r1 f1 =>
      match res with
      | (true, _) =>
        match r1.read_and_unused with
        | d :: rest =>
          ⟨.ok (some ⟨4 + d.length, d⟩), { r1 with read_and_unused := rest }, f1, []⟩
        | [] => ⟨.panicked, r1, f1, []⟩
      | (false, _) => ⟨.ok none, r1, f1, []⟩)

/-- The `for _ in 0..k { self.read_one().await?; }` loop of
`Receiver::recv_batch`. -/
def read_n (saveOk : Bool) : Nat → ReceiverS → Files → Step Unit
  | 0, r, f => ⟨.ok (), r, f, []⟩
  | k + 1, r, f =>
    (read_one saveOk r f).bind (fun _ r1 f1 => read_n saveOk k r1 f1)

/-- `Receiver::recv_batch(n)`: fetch what is missing from the disk, then
drain `n` into a guard whose length is the summed record length. -/
def recv_batch (saveOk : Bool) (n : Nat) (r : ReceiverS) (f : Files) :
    Step (RecvGuard (List (List Nat))) :=
  (read_n saveOk (n - r.read_and_unused.length) r f).bind (fun _ r1 f1 =>
    let dr := drain n r1.read_and_unused
    ⟨.ok ⟨sumRecordLens dr.1, dr.1⟩, { r1 with read_and_unused := dr.2 }, f1, []⟩)

/-- The bounded read loop of `Receiver::recv_batch_timeout`: at most `k`
iterations of `read_one_timeout` with the shared budget, stopping at the
first timeout and counting successful reads in `n_read`. -/
def read_n_timeout (saveOk : Bool) : Nat → Nat → Nat → ReceiverS → Files → Step Nat
  | 0, _, n_read, r, f => ⟨.ok n_read, r, f, []⟩
  | k + 1, budget, n_read, r, f =>
    (read_one_timeout saveOk budget r f).bind (fun res r1 f1 =>
      match res with
      | (false, _) => ⟨.ok n_read, r1, f1, []⟩
      | (true, b1) => read_n_timeout saveOk k b1 (n_read + 1) r1 f1)

/-- `Receiver::recv_batch_timeout(n, timeout)`: read until the timeout or
until `n - read_and_unused.len()` reads happened, then drain only `n_read`
(the number of elements read during this very call). -/
def recv_batch_timeout (saveOk : Bool) (n budget : Nat) (r : ReceiverS) (f : Files) :
    Step (RecvGuard (List (List Nat))) :=
  (read_n_timeout saveOk (n - r.read_and_unused.length) budget 0 r f).bind
    (fun n_read r1 f1 =>
      let dr := drain n_read r1.read_and_unused
      ⟨.ok ⟨sumRecordLens dr.1, dr.1⟩, { r1 with read_and_unused := dr.2 }, f1, []⟩)

/-- The poor man's do-while of `Receiver::recv_until`, with `fuel` bounding
the number of iterations (the Rust loop may run unboundedly). -/
def recv_until_loop (saveOk : Bool) (p : Option (List Nat) → Bool) :
    Nat → Nat → ReceiverS → Files → Step (RecvGuard (List (List Nat)))
  | 0, _, r, f => ⟨.blocked, r, f, []⟩
  | fuel + 1, n_read, r, f =>
    (if n_read = r.read_and_unused.length
     then read_one saveOk r f
     else ⟨.ok (), r, f, []⟩).bind (fun _ r1 f1 =>
       match r1.read_and_unused.get? n_read with
       | none => ⟨.panicked, r1, f1, []⟩
       | some item =>
         if p (some item) then
           let dr := drain n_read r1.read_and_unused
           ⟨.ok ⟨sumRecordLens dr.1, dr.1⟩, { r1 with read_and_unused := dr.2 }, f1, []⟩
         else
           recv_until_loop saveOk p fuel (n_read + 1) r1 f1)

/-- `Receiver::recv_until(predicate)`: first calls `predicate(None)` and
discards the result, then consumes elements while the predicate rejects
them, draining the consumed ones into the guard. -/
def recv_until (saveOk : Bool) (p : Option (List Nat) → Bool) (fuel : Nat)
    (r : ReceiverS) (f : Files) : Step (RecvGuard (List (List Nat))) :=
  let _init : Bool := p none
  recv_until_loop saveOk p fuel 0 r f

end Receiver

namespace RecvGuard

/-- `RecvGuard::commit`: advance the receiver's in-memory cursor
`state.position` by the guard's `len`; no rollback seek happens. -/
def commit (g : RecvGuard T) (r : ReceiverS) : ReceiverS :=
  { r with state := { r.state with position := r.state.position + g.len } }

/-- `RecvGuard`'s `Drop` without commit: seek the tail follower backward
by `len` (the best-effort rollback); `state.position` is untouched. -/
def drop (g : RecvGuard T) (r : ReceiverS) : ReceiverS :=
  { r with fPos := r.fPos - g.len }

/-- `RecvGuard::rollback`: the explicit rollback, same seek as `drop` but
with the seek error reported to the caller (always `ok` here since seeks
do not fail in the model). -/
def rollback (g : RecvGuard T) (r : ReceiverS) : RRes Unit × ReceiverS :=
  (.ok (), { r with fPos := r.fPos - g.len })

/-- `RecvGuard::into_inner`: take the item and commit. -/
def into_inner (g : RecvGuard T) (r : ReceiverS) : T × ReceiverS :=
  (g.item, commit g r)

end RecvGuard

/-- `n` iterations of `receiver.recv().await?.commit()`, collecting the
delivered payloads (the enqueue-then-dequeue consumption pattern). -/
def recvCommitN : Nat → ReceiverS → Files → Option (List (List Nat))
  | 0, _, _ => some []
  | n + 1, r, f =>
    match Receiver.recv true r f with
    | ⟨.ok g, r1, f1, _⟩ =>
      (recvCommitN n (RecvGuard.commit g r1) f1).map (fun l => g.item :: l)
    | _ => none

/-! ### Byte-level reasoning helpers -/

/-- `bs` are exactly the bytes of segment `seg` starting at offset `pos`. -/
def bytesAt (f : Files) (seg pos : Nat) (bs : List (Option Nat)) : Prop :=
  ((f seg).drop pos).take bs.length = bs

/-- A complete record (header plus payload) for payload `p` sits at offset
`pos` of segment `seg`, with `p` within the sender's length bound. -/
def recordAt (f : Files) (seg pos : Nat) (p : List Nat) : Prop :=
  p.length < 4294967295 ∧ bytesAt f seg pos ((Header.encode p.length ++ p).map some)

/-- The remaining stream: starting at `(seg, pos)`, the files hold the
records of `ps` in order, possibly crossing an EOF header into the next
segment (in which case a record follows immediately, as the sender always
writes a record into a fresh segment before capping it). -/
inductive Rest : Files → Nat → Nat → List (List Nat) → Prop where
  | nil : ∀ f seg pos, Rest f seg pos []
  | cons : ∀ f seg pos p ps, recordAt f seg pos p →
      Rest f seg (pos + (4 + p.length)) ps → Rest f seg pos (p :: ps)
  | eof : ∀ f seg pos p ps, bytesAt f seg pos EOFw → recordAt f (seg + 1) 0 p →
      Rest f (seg + 1) (4 + p.length) ps → Rest f seg pos (p :: ps)

/-- `Rest` whose first step is a plain record (not an EOF jump). -/
def RestStart (f : Files) (seg pos : Nat) : List (List Nat) → Prop
  | [] => True
  | p :: ps => recordAt f seg pos p ∧ Rest f seg (pos + (4 + p.length)) ps

theorem restStart_rest {f : Files} {seg pos : Nat} {ps : List (List Nat)}
    (h : RestStart f seg pos ps) : Rest f seg pos ps := by
  cases ps with
  | nil => exact Rest.nil f seg pos
  | cons p ps => exact Rest.cons f seg pos p ps h.1 h.2

/-- Files grow only by appending (the sender never rewrites bytes). -/
def grows (f f' : Files) : Prop := ∀ k, ∃ t, f' k = f k ++ t

theorem grows_refl (f : Files) : grows f f :=
  fun k => ⟨[], (List.append_nil (f k)).symm⟩

theorem grows_trans {f g h : Files} (h1 : grows f g) (h2 : grows g h) :
    grows f h := by
  intro k
  obtain ⟨t1, ht1⟩ := h1 k
  obtain ⟨t2, ht2⟩ := h2 k
  exact ⟨t1 ++ t2, by rw [ht2, ht1, List.append_assoc]⟩

theorem grows_appendSeg (f : Files) (seg : Nat) (bs : List (Option Nat)) :
    grows f (appendSeg f seg bs) := by
  intro k
  unfold appendSeg
  by_cases hk : k = seg
  · exact ⟨bs, by simp [hk]⟩
  · exact ⟨[], by simp [hk]⟩

theorem bytesAt_mono {f f' : Files} {seg pos : Nat} {bs : List (Option Nat)}
    (h : bytesAt f seg pos bs) (hg : grows f f') : bytesAt f' seg pos bs := by
  obtain ⟨t, ht⟩ := hg seg
  unfold bytesAt at *
  have hlen : bs.length ≤ ((f seg).drop pos).length := by
    have hc := congrArg List.length h
    rw [List.length_take] at hc
    omega
  rw [ht, List.drop_append_eq_append_drop, List.take_append_of_le_length hlen, h]

theorem recordAt_mono {f f' : Files} {seg pos : Nat} {p : List Nat}
    (h : recordAt f seg pos p) (hg : grows f f') : recordAt f' seg pos p :=
  ⟨h.1, bytesAt_mono h.2 hg⟩

/-- `Rest` only looks at segments `≥ seg`, so agreeing files there give the
same stream (used when the receiver removes an already-passed segment). -/
theorem Rest.frame {f f' : Files} {seg pos : Nat} {ps : List (List Nat)}
    (h : Rest f seg pos ps) (hag : ∀ k, seg ≤ k → f' k = f k) : Rest f' seg pos ps := by
  induction h generalizing f' with
  | nil s q => exact Rest.nil f' s q
  | cons s q p ps hrec hrest ih =>
    refine Rest.cons f' s q p ps ⟨hrec.1, ?_⟩ (ih hag)
    unfold bytesAt
    rw [hag s le_rfl]
    exact hrec.2
  | eof s q p ps heof hrec hrest ih =>
    refine Rest.eof f' s q p ps ?_ ⟨hrec.1, ?_⟩
      (ih (fun k hk => hag k (by omega)))
    · unfold bytesAt
      rw [hag s le_rfl]
      exact heof
    · unfold bytesAt
      rw [hag (s + 1) (by omega)]
      exact hrec.2

/-- Splitting a run of bytes at a list append. -/
theorem bytesAt_split {f : Files} {seg pos : Nat} {xs ys : List (Option Nat)}
    (h : bytesAt f seg pos (xs ++ ys)) :
    bytesAt f seg pos xs ∧ bytesAt f seg (pos + xs.length) ys := by
  unfold bytesAt at *
  rw [List.length_append] at h
  have hlen : xs.length + ys.length ≤ ((f seg).drop pos).length := by
    have hc := congrArg List.length h
    rw [List.length_take, List.length_append] at hc
    omega
  constructor
  · have h1 : ((f seg).drop pos).take xs.length
        = (((f seg).drop pos).take (xs.length + ys.length)).take xs.length := by
      rw [List.take_take]
      congr 1
      omega
    rw [h1, h, List.take_append_of_le_length le_rfl, List.take_length]
  · have hM : (f seg).drop pos
        = xs ++ (ys ++ ((f seg).drop pos).drop (xs.length + ys.length)) := by
      conv_lhs => rw [← List.take_append_drop (xs.length + ys.length) ((f seg).drop pos)]
      rw [h, List.append_assoc]
    have hdd : (f seg).drop (pos + xs.length) = ((f seg).drop pos).drop xs.length := by
      rw [List.drop_drop]
    rw [hdd, hM, List.drop_left, List.take_append_of_le_length le_rfl, List.take_length]

/-! ### Header codec facts -/

theorem encode_length (n : Nat) : (Header.encode n).length = 4 := rfl

theorem decode_encode {n : Nat} (h : n < 4294967296) :
    Header.decode (Header.encode n) = n := by
  have hd : Header.decode (Header.encode n)
      = n % 256 + 256 * (n / 256 % 256) + 65536 * (n / 65536 % 256)
        + 16777216 * (n / 16777216 % 256) := rfl
  rw [hd]
  omega

theorem encode_ne_eof {n : Nat} (h : n < 4294967295) :
    Header.encode n ≠ HEADER_EOF := by
  unfold Header.encode HEADER_EOF
  intro heq
  have h1 : n % 256 = 255 := by injection heq
  have hrest := heq
  simp only [List.cons.injEq] at hrest
  omega

/-! ### `readExact` characterization -/

theorem filterMap_id_map_some (l : List Nat) : (l.map some).filterMap id = l := by
  induction l with
  | nil => rfl
  | cons a l ih => simp [ih]

theorem readExact_ok {f : Files} {seg pos : Nat} (bs : List Nat)
    (h : bytesAt f seg pos (bs.map some)) :
    readExact f seg pos bs.length = .ok bs := by
  unfold bytesAt at h
  rw [List.length_map] at h
  unfold readExact
  rw [h]
  simp [List.any_map, Function.comp, filterMap_id_map_some]

/-! ### `Step.bind` reduction -/

theorem Step.bind_ok (a : α) (r : ReceiverS) (f : Files) (t : List Event)
    (k : α → ReceiverS → Files → Step β) :
    Step.bind ⟨.ok a, r, f, t⟩ k
      = ⟨(k a r f).res, (k a r f).rcv, (k a r f).fs, t ++ (k a r f).tr⟩ := rfl

theorem Step.bind_ioError (r : ReceiverS) (f : Files) (t : List Event)
    (k : α → ReceiverS → Files → Step β) :
    Step.bind ⟨.ioError, r, f, t⟩ k = ⟨.ioError, r, f, t⟩ := rfl

theorem Step.bind_panicked (r : ReceiverS) (f : Files) (t : List Event)
    (k : α → ReceiverS → Files → Step β) :
    Step.bind ⟨.panicked, r, f, t⟩ k = ⟨.panicked, r, f, t⟩ := rfl

theorem Step.bind_blocked (r : ReceiverS) (f : Files) (t : List Event)
    (k : α → ReceiverS → Files → Step β) :
    Step.bind ⟨.blocked, r, f, t⟩ k = ⟨.blocked, r, f, t⟩ := rfl

/-! ### Computation of the receiver on well-formed streams -/

theorem bytesAt_updateSeg_ne {f : Files} {seg' seg pos : Nat}
    {v bs : List (Option Nat)} (hne : seg ≠ seg') (h : bytesAt f seg pos bs) :
    bytesAt (updateSeg f seg' v) seg pos bs := by
  unfold bytesAt updateSeg at *
  rw [if_neg hne]
  exact h

theorem recordAt_updateSeg_ne {f : Files} {seg' seg pos : Nat}
    {v : List (Option Nat)} {p : List Nat} (hne : seg ≠ seg')
    (h : recordAt f seg pos p) : recordAt (updateSeg f seg' v) seg pos p :=
  ⟨h.1, bytesAt_updateSeg_ne hne h.2⟩

/-- `read_header` on a record header: reads and stores the 4 header bytes
and returns the payload length. -/
theorem read_header_rec {r : ReceiverS} {f : Files} {p : List Nat} (saveOk : Bool)
    (hmh : r.maybe_header = none) (hrec : recordAt f r.fSeg r.fPos p) :
    Receiver.read_header saveOk r f
      = ⟨.ok p.length,
          { r with fPos := r.fPos + 4, maybe_header := some (Header.encode p.length) },
          f, []⟩ := by
  obtain ⟨hlt, hbytes⟩ := hrec
  rw [List.map_append] at hbytes
  obtain ⟨hH, hP⟩ := bytesAt_split hbytes
  have h4 : readExact f r.fSeg r.fPos 4 = .ok (Header.encode p.length) :=
    readExact_ok _ hH
  have hne : Header.encode p.length ≠ HEADER_EOF := encode_ne_eof hlt
  have hdec : Header.decode (Header.encode p.length) = p.length :=
    decode_encode (by omega)
  simp [Receiver.read_header, hmh, h4, hne, hdec]

/-- `read_one` on a record: consumes header and payload, pushes the payload
onto `read_and_unused`. -/
theorem read_one_rec {r : ReceiverS} {f : Files} {p : List Nat} (saveOk : Bool)
    (hmh : r.maybe_header = none) (hrec : recordAt f r.fSeg r.fPos p) :
    Receiver.read_one saveOk r f
      = ⟨.ok (),
          { r with
              fPos := r.fPos + (4 + p.length),
              maybe_header := none,
              read_and_unused := r.read_and_unused ++ [p] },
          f, []⟩ := by
  have hhdr := read_header_rec saveOk hmh hrec
  obtain ⟨hlt, hbytes⟩ := hrec
  rw [List.map_append] at hbytes
  obtain ⟨hH, hP⟩ := bytesAt_split hbytes
  have hlen4 : (List.map some (Header.encode p.length)).length = 4 := rfl
  rw [hlen4] at hP
  have hpay : readExact f r.fSeg (r.fPos + 4) p.length = .ok p := readExact_ok _ hP
  rw [Receiver.read_one, hhdr, Step.bind_ok]
  simp only [hpay]
  have hass : r.fPos + 4 + p.length = r.fPos + (4 + p.length) := by omega
  simp [hass]

/-- `read_one` at an EOF header followed by a record in the next segment:
advances the segment (saving state and removing the old file), re-reads the
header and consumes the record. -/
theorem read_one_eof {r : ReceiverS} {f : Files} {p : List Nat}
    (hmh : r.maybe_header = none) (hseg : r.fSeg = r.state.segment)
    (heof : bytesAt f r.fSeg r.fPos EOFw)
    (hrec : recordAt f (r.fSeg + 1) 0 p) :
    Receiver.read_one true r f
      = ⟨.ok (),
          { r with
              state := ⟨r.state.segment + 1, 0⟩,
              fSeg := r.state.segment + 1,
              fPos := 4 + p.length,
              maybe_header := none,
              read_and_unused := r.read_and_unused ++ [p] },
          updateSeg f r.state.segment [],
          [Event.saveState (r.state.segment + 1) 0,
           Event.openFollower (r.state.segment + 1),
           Event.removeFile r.state.segment]⟩ := by
  have hEOF : readExact f r.fSeg r.fPos 4 = .ok HEADER_EOF :=
    readExact_ok HEADER_EOF heof
  have hne2 : r.fSeg + 1 ≠ r.state.segment := by omega
  have hrec2 : recordAt (updateSeg f r.state.segment []) (r.fSeg + 1) 0 p :=
    recordAt_updateSeg_ne hne2 hrec
  obtain ⟨hlt, hbytes⟩ := hrec2
  rw [List.map_append] at hbytes
  obtain ⟨hH, hP⟩ := bytesAt_split hbytes
  have hlen4 : (List.map some (Header.encode p.length)).length = 4 := rfl
  rw [hlen4] at hP
  rw [hseg] at hH hP
  have h4 : readExact (updateSeg f r.state.segment []) (r.state.segment + 1) 0 4
      = .ok (Header.encode p.length) :=
    readExact_ok _ hH
  have hpay : readExact (updateSeg f r.state.segment []) (r.state.segment + 1) 4 p.length
      = .ok p :=
    readExact_ok _ hP
  have hdec : Header.decode (Header.encode p.length) = p.length :=
    decode_encode (by omega)
  simp [Receiver.read_one, Receiver.read_header, hmh, hEOF, Receiver.advance,
    QueueState.advance_segment, Step.bind_ok, h4, hpay, hdec]

/-- Inversion for `Rest` at a nonempty payload list. -/
theorem rest_cons_inv {f : Files} {seg pos : Nat} {p : List Nat} {ps : List (List Nat)}
    (h : Rest f seg pos (p :: ps)) :
    (recordAt f seg pos p ∧ Rest f seg (pos + (4 + p.length)) ps)
    ∨ (bytesAt f seg pos EOFw ∧ recordAt f (seg + 1) 0 p
        ∧ Rest f (seg + 1) (4 + p.length) ps) := by
  cases h with
  | cons _ _ _ _ hrec hrest => exact Or.inl ⟨hrec, hrest⟩
  | eof _ _ _ _ heof hrec hrest => exact Or.inr ⟨heof, hrec, hrest⟩

/-- `read_one` on any well-formed remaining stream: delivers the next
payload into `read_and_unused` and leaves a well-formed remainder. -/
theorem read_one_ok {r : ReceiverS} {f : Files} {p : List Nat} {ps : List (List Nat)}
    (hmh : r.maybe_header = none) (hseg : r.fSeg = r.state.segment)
    (hrest : Rest f r.fSeg r.fPos (p :: ps)) :
    ∃ r' f' t, Receiver.read_one true r f = ⟨.ok (), r', f', t⟩
      ∧ r'.read_and_unused = r.read_and_unused ++ [p]
      ∧ r'.maybe_header = none
      ∧ r'.fSeg = r'.state.segment
      ∧ Rest f' r'.fSeg r'.fPos ps := by
  rcases rest_cons_inv hrest with ⟨hrec, hrest'⟩ | ⟨heof, hrec, hrest'⟩
  · exact ⟨_, _, _, read_one_rec true hmh hrec, rfl, rfl, hseg, hrest'⟩
  · refine ⟨_, _, _, read_one_eof hmh hseg heof hrec, rfl, rfl, rfl, ?_⟩
    have hag : ∀ k, r.fSeg + 1 ≤ k → updateSeg f r.state.segment [] k = f k := by
      intro k hk
      unfold updateSeg
      rw [if_neg (by omega)]
    have hfr := Rest.frame hrest' hag
    rw [hseg] at hfr
    exact hfr

/-- `recv` on an empty buffer over a well-formed stream: reads and delivers
the next payload, leaving the buffer empty again. -/
theorem recv_read {r : ReceiverS} {f : Files} {p : List Nat} {ps : List (List Nat)}
    (hbuf : r.read_and_unused = []) (hmh : r.maybe_header = none)
    (hseg : r.fSeg = r.state.segment) (hrest : Rest f r.fSeg r.fPos (p :: ps)) :
    ∃ r' f' t, Receiver.recv true r f = ⟨.ok ⟨4 + p.length, p⟩, r', f', t⟩
      ∧ r'.read_and_unused = []
      ∧ r'.maybe_header = none
      ∧ r'.fSeg = r'.state.segment
      ∧ Rest f' r'.fSeg r'.fPos ps := by
  obtain ⟨r1, f1, t, hone, hbuf1, hmh1, hseg1, hrest1⟩ := read_one_ok hmh hseg hrest
  rw [hbuf] at hbuf1
  refine ⟨{ r1 with read_and_unused := [] }, f1, t, ?_, rfl, hmh1, hseg1, hrest1⟩
  rw [Receiver.recv]
  simp only [hbuf, hone, Step.bind_ok, hbuf1, List.nil_append, List.append_nil]

/-- Draining `recv().commit()` `|ps|` times over a well-formed stream
delivers exactly `ps`. -/
theorem recvCommitN_ok {ps : List (List Nat)} : ∀ {r : ReceiverS} {f : Files},
    r.read_and_unused = [] → r.maybe_header = none → r.fSeg = r.state.segment →
    Rest f r.fSeg r.fPos ps →
    recvCommitN ps.length r f = some ps := by
  induction ps with
  | nil =>
    intro r f _ _ _ _
    rfl
  | cons p ps ih =>
    intro r f hbuf hmh hseg hrest
    obtain ⟨r1, f1, t, hrecv, hbuf1, hmh1, hseg1, hrest1⟩ :=
      recv_read hbuf hmh hseg hrest
    have hstep : recvCommitN (p :: ps).length r f
        = (recvCommitN ps.length (RecvGuard.commit ⟨4 + p.length, p⟩ r1) f1).map
            (fun l => p :: l) := by
      simp only [List.length_cons, recvCommitN, hrecv]
    rw [hstep, ih (r := RecvGuard.commit ⟨4 + p.length, p⟩ r1) hbuf1 hmh1 hseg1 hrest1]
    rfl

/-- The `recv_batch` read loop delivers the next `|ps|` payloads into the
buffer in order. -/
theorem read_n_ok {ps : List (List Nat)} : ∀ {r : ReceiverS} {f : Files},
    r.maybe_header = none → r.fSeg = r.state.segment →
    Rest f r.fSeg r.fPos ps →
    ∃ r' f' t, Receiver.read_n true ps.length r f = ⟨.ok (), r', f', t⟩
      ∧ r'.read_and_unused = r.read_and_unused ++ ps := by
  induction ps with
  | nil =>
    intro r f _ _ _
    exact ⟨r, f, [], rfl, by simp⟩
  | cons p ps ih =>
    intro r f hmh hseg hrest
    obtain ⟨r1, f1, t, hone, hbuf1, hmh1, hseg1, hrest1⟩ := read_one_ok hmh hseg hrest
    obtain ⟨r2, f2, t2, hn, hbuf2⟩ := ih hmh1 hseg1 hrest1
    refine ⟨r2, f2, t ++ t2, ?_, ?_⟩
    · simp only [List.length_cons, Receiver.read_n, hone, Step.bind_ok, hn]
    · rw [hbuf2, hbuf1, List.append_assoc]
      rfl

/-! ### Sender facts -/

/-- The sender's derived-state invariant: the current segment file's length
is exactly `state.position`, and later segments do not exist yet. -/
def SInv (w : SenderW) : Prop :=
  (w.files w.s.segment).length = w.s.position
    ∧ ∀ k, w.s.segment < k → w.files k = []

theorem bytesAt_append_here {f : Files} {seg pos : Nat} {bs : List (Option Nat)}
    (hf : (f seg).length = pos) : bytesAt (appendSeg f seg bs) seg pos bs := by
  unfold bytesAt appendSeg
  rw [if_pos rfl, ← hf, List.drop_left, List.take_length]

theorem appendSeg_self (f : Files) (seg : Nat) (bs : List (Option Nat)) :
    appendSeg f seg bs seg = f seg ++ bs := by
  unfold appendSeg
  rw [if_pos rfl]

theorem appendSeg_ne (f : Files) {seg k : Nat} (bs : List (Option Nat))
    (h : k ≠ seg) : appendSeg f seg bs k = f k := by
  unfold appendSeg
  rw [if_neg h]

/-- A successful `send` appends the record at the old position; the state
either stays in the segment or caps it off with an EOF header and moves on. -/
theorem send_ok {w : SenderW} {d : List Nat} (hinv : SInv w) (hd : d.length < 4294967295) :
    ∃ w1, Sender.send w d = some w1 ∧ SInv w1 ∧ grows w.files w1.files
      ∧ recordAt w1.files w.s.segment w.s.position d
      ∧ ((w1.s.segment = w.s.segment ∧ w1.s.position = w.s.position + (4 + d.length))
         ∨ (w1.s.segment = w.s.segment + 1 ∧ w1.s.position = 0
            ∧ bytesAt w1.files w.s.segment (w.s.position + (4 + d.length)) EOFw)) := by
  obtain ⟨hlen, hcover⟩ := hinv
  have hrblen : ((Header.encode d.length ++ d).map some).length = 4 + d.length := by
    simp [Header.encode]
    omega
  set w2 : SenderW :=
    { s := ⟨w.s.segment, w.s.position + (4 + d.length)⟩,
      files := appendSeg w.files w.s.segment ((Header.encode d.length ++ d).map some) }
    with hw2
  have hsend : Sender.send w d
      = some (if QueueState.is_past_end w2.s then Sender.cap_off_and_move w2 else w2) := by
    rw [Sender.send, Sender.write, if_pos hd]
    rfl
  have hlen2 : (w2.files w2.s.segment).length = w2.s.position := by
    show (appendSeg w.files w.s.segment ((Header.encode d.length ++ d).map some)
        w.s.segment).length = w.s.position + (4 + d.length)
    rw [appendSeg_self, List.length_append, hlen, hrblen]
  have hcover2 : ∀ k, w2.s.segment < k → w2.files k = [] := by
    intro k hk
    show appendSeg w.files w.s.segment ((Header.encode d.length ++ d).map some) k = []
    rw [appendSeg_ne _ _ (by simp only [hw2] at hk; omega)]
    exact hcover k (by simp only [hw2] at hk; omega)
  have hrec2 : recordAt w2.files w.s.segment w.s.position d :=
    ⟨hd, bytesAt_append_here hlen⟩
  cases hpe : QueueState.is_past_end w2.s with
  | false =>
    refine ⟨w2, ?_, ⟨hlen2, hcover2⟩, grows_appendSeg _ _ _, hrec2, Or.inl ⟨rfl, rfl⟩⟩
    rw [hsend, hpe]
    rfl
  | true =>
    have hne1 : w2.s.segment + 1 ≠ w2.s.segment := by omega
    have hlt1 : w2.s.segment < w2.s.segment + 1 := Nat.lt_succ_self _
    refine ⟨Sender.cap_off_and_move w2, ?_, ⟨?_, ?_⟩,
      grows_trans (grows_appendSeg _ _ _) (grows_appendSeg _ _ _),
      recordAt_mono hrec2 (grows_appendSeg _ _ _), Or.inr ⟨rfl, rfl, ?_⟩⟩
    · rw [hsend, hpe]
      rfl
    · show (appendSeg w2.files w2.s.segment EOFw (w2.s.segment + 1)).length = 0
      rw [appendSeg_ne _ _ hne1, hcover2 _ hlt1]
      rfl
    · intro k hk
      have hk' : w2.s.segment + 1 < k := hk
      show appendSeg w2.files w2.s.segment EOFw k = []
      rw [appendSeg_ne _ _ (by omega)]
      exact hcover2 k (by omega)
    · exact bytesAt_append_here hlen2

/-- A successful run of `send` calls lays the records of `ds` out as a
well-formed stream starting at the initial sender state. -/
theorem sendAll_rest {ds : List (List Nat)} : ∀ {w : SenderW}, SInv w →
    (∀ d ∈ ds, d.length < 4294967295) →
    ∃ w', Sender.sendAll w ds = some w' ∧ SInv w' ∧ grows w.files w'.files
      ∧ RestStart w'.files w.s.segment w.s.position ds := by
  induction ds with
  | nil =>
    intro w hinv _
    exact ⟨w, rfl, hinv, grows_refl _, trivial⟩
  | cons d ds ih =>
    intro w hinv hlen
    have hd : d.length < 4294967295 := hlen d (by simp)
    obtain ⟨w1, hsend, hinv1, hgrow1, hrec1, hcase⟩ := send_ok hinv hd
    obtain ⟨w', hall, hinv', hgrow', hrs⟩ :=
      ih hinv1 (fun d2 hd2 => hlen d2 (by simp [hd2]))
    refine ⟨w', ?_, hinv', grows_trans hgrow1 hgrow', ?_⟩
    · rw [Sender.sendAll, hsend]
      exact hall
    · refine ⟨recordAt_mono hrec1 hgrow', ?_⟩
      rcases hcase with ⟨hseg1, hpos1⟩ | ⟨hseg1, hpos1, heofb⟩
      · rw [hseg1, hpos1] at hrs
        exact restStart_rest hrs
      · rw [hseg1, hpos1] at hrs
        cases ds with
        | nil => exact Rest.nil _ _ _
        | cons d2 ds2 =>
          obtain ⟨hrec2, hrest2⟩ := hrs
          refine Rest.eof _ _ _ _ _ (bytesAt_mono heofb hgrow') hrec2 ?_
          rw [Nat.zero_add] at hrest2
          exact hrest2

theorem drain_eq (n : Nat) (q : List (List Nat)) :
    Receiver.drain n q = (q.take n, q.drop n) := by
  unfold Receiver.drain
  by_cases h0 : n = 0
  · subst h0
    simp
  · rw [if_neg h0]

/-! ### Claim theorems -/

/-- Claim C1: payloads sent with `Sender::send` and consumed with
`Receiver::recv().commit()` are delivered byte-for-byte intact and in FIFO
order: for any list of in-bounds payloads sent into a fresh queue,
receiving and committing them one by one yields exactly that list. -/
theorem send_recv_commit_fifo (ds : List (List Nat))
    (hlen : ∀ d ∈ ds, d.length < 4294967295) :
    ∃ w : SenderW, Sender.sendAll ⟨⟨0, 0⟩, emptyFiles⟩ ds = some w
      ∧ recvCommitN ds.length ⟨⟨0, 0⟩, 0, 0, none, []⟩ w.files = some ds := by
  have hinv : SInv ⟨⟨0, 0⟩, emptyFiles⟩ := ⟨rfl, fun k _ => rfl⟩
  obtain ⟨w', hall, _, _, hrs⟩ := sendAll_rest hinv hlen
  exact ⟨w', hall, recvCommitN_ok rfl rfl rfl (restStart_rest hrs)⟩

/-- Witness for C1 at a concrete payload list (with an empty payload). -/
theorem send_recv_commit_fifo_witness :
    ∃ w : SenderW, Sender.sendAll ⟨⟨0, 0⟩, emptyFiles⟩ [[1, 2], [], [3]] = some w
      ∧ recvCommitN 3 ⟨⟨0, 0⟩, 0, 0, none, []⟩ w.files = some [[1, 2], [], [3]] :=
  send_recv_commit_fifo [[1, 2], [], [3]] (by decide)

/-- Claim C6: `Sender::send` accepts a payload exactly when its length is
strictly below `0xFFFFFFFF` (`assert!(len < u32::MAX)` before writing), and
for accepted payloads the 4-byte header is the little-endian encoding of
the length, which is never the EOF sentinel. -/
theorem send_length_bound (w : SenderW) (d : List Nat) :
    ((Sender.send w d).isSome ↔ d.length < 4294967295)
    ∧ ((Sender.write w d).isSome ↔ d.length < 4294967295)
    ∧ (d.length < 4294967295 →
        Sender.write w d = some (4 + d.length,
          { w with
              files := appendSeg w.files w.s.segment
                ((Header.encode d.length ++ d).map some) })
        ∧ Header.encode d.length ≠ HEADER_EOF) := by
  refine ⟨?_, ?_, fun h => ⟨?_, encode_ne_eof h⟩⟩
  · rw [Sender.send, Sender.write]
    by_cases h : d.length < 4294967295 <;> simp [h]
  · rw [Sender.write]
    by_cases h : d.length < 4294967295 <;> simp [h]
  · rw [Sender.write, if_pos h]

/-- Witness for C6 at a concrete payload. -/
theorem send_length_bound_witness :
    ((Sender.send ⟨⟨0, 0⟩, emptyFiles⟩ [7]).isSome
        ↔ ([7] : List Nat).length < 4294967295)
    ∧ (Sender.write ⟨⟨0, 0⟩, emptyFiles⟩ [7]
        = some (4 + ([7] : List Nat).length,
            { s := ⟨0, 0⟩,
              files := appendSeg emptyFiles 0
                ((Header.encode ([7] : List Nat).length ++ [7]).map some) })
        ∧ Header.encode ([7] : List Nat).length ≠ HEADER_EOF) :=
  ⟨(send_length_bound ⟨⟨0, 0⟩, emptyFiles⟩ [7]).1,
   (send_length_bound ⟨⟨0, 0⟩, emptyFiles⟩ [7]).2.2 (by decide)⟩

/-- Claim C7: receiver segment advance is atomic with respect to the
durable save.  When `persistence.save` fails, the in-memory segment index
is rewound, the error is returned, the old tail follower stays active and
nothing durable happened; when it succeeds, the state save event strictly
precedes the removal of the old segment file.  (The spec-modelled
`retreat_segment` restores only the segment index; the position field was
already reset by `advance_segment`, which the claim does not mention.) -/
theorem advance_save_atomicity (r : ReceiverS) (f : Files) :
    ((Receiver.advance false r f).res = .ioError
      ∧ (Receiver.advance false r f).rcv.state.segment = r.state.segment
      ∧ (Receiver.advance false r f).rcv.fSeg = r.fSeg
      ∧ (Receiver.advance false r f).rcv.fPos = r.fPos
      ∧ (Receiver.advance false r f).fs = f
      ∧ (Receiver.advance false r f).tr = [])
    ∧ Receiver.advance true r f
      = ⟨.ok (),
          { r with
              state := ⟨r.state.segment + 1, 0⟩,
              fSeg := r.state.segment + 1,
              fPos := 0 },
          updateSeg f r.state.segment [],
          [Event.saveState (r.state.segment + 1) 0,
           Event.openFollower (r.state.segment + 1),
           Event.removeFile r.state.segment]⟩ :=
  ⟨⟨rfl, rfl, rfl, rfl, rfl, rfl⟩, rfl⟩

/-- Claim C8: `RecvGuard::into_inner` behaves as a commit: it returns the
held item, advances `state.position` by the guard's `len`, and performs no
rollback seek (the tail follower offset and the buffer are untouched). -/
theorem into_inner_commits {T : Type} (g : RecvGuard T) (r : ReceiverS) :
    RecvGuard.into_inner g r = (g.item, RecvGuard.commit g r)
    ∧ (RecvGuard.into_inner g r).2.state.position = r.state.position + g.len
    ∧ (RecvGuard.into_inner g r).2.fPos = r.fPos
    ∧ (RecvGuard.into_inner g r).2.state.segment = r.state.segment
    ∧ (RecvGuard.into_inner g r).2.read_and_unused = r.read_and_unused :=
  ⟨rfl, rfl, rfl, rfl, rfl⟩

/-- Claim C10: `recv_batch(0)` and `recv_batch_timeout(0, t)` return
immediately: no read happens, the receiver, files and event trace are
untouched, the guard holds `[]` with `len = 0`, and committing that guard
leaves `state.position` (and the whole receiver) unchanged. -/
theorem recv_batch_zero_noop (r : ReceiverS) (f : Files) (b : Nat) :
    Receiver.recv_batch true 0 r f = ⟨.ok ⟨0, []⟩, r, f, []⟩
    ∧ Receiver.recv_batch_timeout true 0 b r f = ⟨.ok ⟨0, []⟩, r, f, []⟩
    ∧ RecvGuard.commit ⟨0, ([] : List (List Nat))⟩ r = r := by
  refine ⟨?_, ?_, rfl⟩
  · rw [Receiver.recv_batch, Nat.zero_sub]
    rfl
  · rw [Receiver.recv_batch_timeout, Nat.zero_sub]
    rfl

/-- Claim C2 (failing input): `recv_batch_timeout(1, t)` on a receiver
whose `read_and_unused` buffer already holds one element returns an empty
guard and leaves the buffered element behind, because the drained count
`n_read` only counts elements read during this call. -/
theorem recv_batch_timeout_skips_buffered :
    Receiver.recv_batch_timeout true 1 5 ⟨⟨0, 0⟩, 0, 0, none, [[7]]⟩ emptyFiles
      = ⟨.ok ⟨0, []⟩, ⟨⟨0, 0⟩, 0, 0, none, [[7]]⟩, emptyFiles, []⟩ := rfl

/-- A queue whose only record has a valid header (`len = 1`) but an I/O
error at the payload byte. -/
def fErr : Files := fun k => if k = 0 then [some 1, some 0, some 0, some 0, none] else []

/-- A queue whose first header byte fails with an I/O error. -/
def fErrHdr : Files := fun k => if k = 0 then [none] else []

/-- Claim C3 counterexample: an I/O error while reading the payload bytes
of a record makes `recv` panic (`expect("poisoned queue")`) instead of
returning the error to the caller. -/
theorem payload_io_error_panics :
    (Receiver.recv true ⟨⟨0, 0⟩, 0, 0, none, []⟩ fErr).res = .panicked
    ∧ (Receiver.recv true ⟨⟨0, 0⟩, 0, 0, none, []⟩ fErr).res ≠ .ioError :=
  ⟨by decide, by decide⟩

/-- A queue whose segment 0 contains only an EOF header. -/
def fEOFonly : Files := fun k => if k = 0 then EOFw else []

/-- `read_one` when the 4-byte header read fails with an I/O error: the
error propagates through `read_header` and `?`. -/
theorem read_one_hdr_ioError (saveOk : Bool) {r : ReceiverS} {f : Files}
    (hmh : r.maybe_header = none) (herr : readExact f r.fSeg r.fPos 4 = .ioError) :
    Receiver.read_one saveOk r f = ⟨.ioError, r, f, []⟩ := by
  rw [Receiver.read_one, Receiver.read_header]
  simp [hmh, herr, Step.bind_ioError]

/-- `read_one` when the header is the EOF sentinel and the durable save in
`advance` fails: the save error propagates (with the segment rewound). -/
theorem read_one_save_fail {r : ReceiverS} {f : Files}
    (hmh : r.maybe_header = none)
    (heof : readExact f r.fSeg r.fPos 4 = .ok HEADER_EOF) :
    Receiver.read_one false r f
      = ⟨.ioError, { r with state := ⟨r.state.segment, 0⟩, fPos := r.fPos + 4 },
          f, []⟩ := by
  rw [Receiver.read_one, Receiver.read_header]
  simp [hmh, heof, Receiver.advance, QueueState.advance_segment,
    QueueState.retreat_segment, Step.bind_ioError]

/-- `read_one` when the header is fine but a payload byte read fails:
the `expect("poisoned queue")` panics. -/
theorem read_one_payload_panics (saveOk : Bool) {r : ReceiverS} {f : Files}
    (hdr : List Nat) (hmh : r.maybe_header = none)
    (hok : readExact f r.fSeg r.fPos 4 = .ok hdr) (hne : hdr ≠ HEADER_EOF)
    (herr : readExact f r.fSeg (r.fPos + 4) (Header.decode hdr) = .ioError) :
    Receiver.read_one saveOk r f
      = ⟨.panicked, { r with fPos := r.fPos + 4, maybe_header := some hdr },
          f, []⟩ := by
  rw [Receiver.read_one, Receiver.read_header]
  simp [hmh, hok, hne, herr, Step.bind_ok]

/-- `recv` propagates a failing `read_one` error. -/
theorem recv_prop_io (saveOk : Bool) {r r' : ReceiverS} {f : Files}
    (hbuf : r.read_and_unused = [])
    (hone : Receiver.read_one saveOk r f = ⟨.ioError, r', f, []⟩) :
    (Receiver.recv saveOk r f).res = .ioError := by
  rw [Receiver.recv]
  simp [hbuf, hone, Step.bind_ioError]

/-- `recv` propagates a panicking `read_one`. -/
theorem recv_prop_panic (saveOk : Bool) {r r' : ReceiverS} {f : Files}
    (hbuf : r.read_and_unused = [])
    (hone : Receiver.read_one saveOk r f = ⟨.panicked, r', f, []⟩) :
    (Receiver.recv saveOk r f).res = .panicked := by
  rw [Receiver.recv]
  simp [hbuf, hone, Step.bind_panicked]

/-- `recv_timeout` propagates a failing `read_one` error. -/
theorem recv_timeout_prop_io (saveOk : Bool) (budget : Nat) {r r' : ReceiverS}
    {f : Files} (hb : budget ≠ 0) (hbuf : r.read_and_unused = [])
    (hone : Receiver.read_one saveOk r f = ⟨.ioError, r', f, []⟩) :
    (Receiver.recv_timeout saveOk budget r f).res = .ioError := by
  have ht : Receiver.read_one_timeout saveOk budget r f = ⟨.ioError, r', f, []⟩ := by
    rw [Receiver.read_one_timeout, if_neg hb, hone]
  rw [Receiver.recv_timeout]
  simp [hbuf, ht, Step.bind_ioError]

/-- `recv_timeout` propagates a panicking `read_one`. -/
theorem recv_timeout_prop_panic (saveOk : Bool) (budget : Nat) {r r' : ReceiverS}
    {f : Files} (hb : budget ≠ 0) (hbuf : r.read_and_unused = [])
    (hone : Receiver.read_one saveOk r f = ⟨.panicked, r', f, []⟩) :
    (Receiver.recv_timeout saveOk budget r f).res = .panicked := by
  have ht : Receiver.read_one_timeout saveOk budget r f = ⟨.panicked, r', f, []⟩ := by
    rw [Receiver.read_one_timeout, if_neg hb, hone]
  rw [Receiver.recv_timeout]
  simp [hbuf, ht, Step.bind_panicked]

/-- `recv_batch` propagates a failing `read_one` error. -/
theorem recv_batch_prop_io (saveOk : Bool) (n : Nat) {r r' : ReceiverS} {f : Files}
    (hn : n ≠ 0) (hbuf : r.read_and_unused = [])
    (hone : Receiver.read_one saveOk r f = ⟨.ioError, r', f, []⟩) :
    (Receiver.recv_batch saveOk n r f).res = .ioError := by
  cases n with
  | zero => exact absurd rfl hn
  | succ k =>
    have hrn : Receiver.read_n saveOk (k + 1) r f = ⟨.ioError, r', f, []⟩ := by
      rw [Receiver.read_n, hone]
      rfl
    rw [Receiver.recv_batch, hbuf]
    simp [hrn, Step.bind_ioError]

/-- `recv_batch` propagates a panicking `read_one`. -/
theorem recv_batch_prop_panic (saveOk : Bool) (n : Nat) {r r' : ReceiverS} {f : Files}
    (hn : n ≠ 0) (hbuf : r.read_and_unused = [])
    (hone : Receiver.read_one saveOk r f = ⟨.panicked, r', f, []⟩) :
    (Receiver.recv_batch saveOk n r f).res = .panicked := by
  cases n with
  | zero => exact absurd rfl hn
  | succ k =>
    have hrn : Receiver.read_n saveOk (k + 1) r f = ⟨.panicked, r', f, []⟩ := by
      rw [Receiver.read_n, hone]
      rfl
    rw [Receiver.recv_batch, hbuf]
    simp [hrn, Step.bind_panicked]

/-- `recv_batch_timeout` propagates a failing `read_one` error. -/
theorem recv_batch_timeout_prop_io (saveOk : Bool) (n budget : Nat)
    {r r' : ReceiverS} {f : Files} (hn : n ≠ 0) (hb : budget ≠ 0)
    (hbuf : r.read_and_unused = [])
    (hone : Receiver.read_one saveOk r f = ⟨.ioError, r', f, []⟩) :
    (Receiver.recv_batch_timeout saveOk n budget r f).res = .ioError := by
  have ht : Receiver.read_one_timeout saveOk budget r f = ⟨.ioError, r', f, []⟩ := by
    rw [Receiver.read_one_timeout, if_neg hb, hone]
  cases n with
  | zero => exact absurd rfl hn
  | succ k =>
    have hrn : Receiver.read_n_timeout saveOk (k + 1) budget 0 r f
        = ⟨.ioError, r', f, []⟩ := by
      rw [Receiver.read_n_timeout, ht]
      rfl
    rw [Receiver.recv_batch_timeout, hbuf]
    simp [hrn, Step.bind_ioError]

/-- `recv_batch_timeout` propagates a panicking `read_one`. -/
theorem recv_batch_timeout_prop_panic (saveOk : Bool) (n budget : Nat)
    {r r' : ReceiverS} {f : Files} (hn : n ≠ 0) (hb : budget ≠ 0)
    (hbuf : r.read_and_unused = [])
    (hone : Receiver.read_one saveOk r f = ⟨.panicked, r', f, []⟩) :
    (Receiver.recv_batch_timeout saveOk n budget r f).res = .panicked := by
  have ht : Receiver.read_one_timeout saveOk budget r f = ⟨.panicked, r', f, []⟩ := by
    rw [Receiver.read_one_timeout, if_neg hb, hone]
  cases n with
  | zero => exact absurd rfl hn
  | succ k =>
    have hrn : Receiver.read_n_timeout saveOk (k + 1) budget 0 r f
        = ⟨.panicked, r', f, []⟩ := by
      rw [Receiver.read_n_timeout, ht]
      rfl
    rw [Receiver.recv_batch_timeout, hbuf]
    simp [hrn, Step.bind_panicked]

/-- `recv_until` propagates a failing `read_one` error. -/
theorem recv_until_prop_io (saveOk : Bool) (pdm : Option (List Nat) → Bool)
    (fuel : Nat) {r r' : ReceiverS} {f : Files} (hfuel : fuel ≠ 0)
    (hbuf : r.read_and_unused = [])
    (hone : Receiver.read_one saveOk r f = ⟨.ioError, r', f, []⟩) :
    (Receiver.recv_until saveOk pdm fuel r f).res = .ioError := by
  cases fuel with
  | zero => exact absurd rfl hfuel
  | succ m =>
    rw [Receiver.recv_until, Receiver.recv_until_loop]
    simp [hbuf, hone, Step.bind_ioError]

/-- `recv_until` propagates a panicking `read_one`. -/
theorem recv_until_prop_panic (saveOk : Bool) (pdm : Option (List Nat) → Bool)
    (fuel : Nat) {r r' : ReceiverS} {f : Files} (hfuel : fuel ≠ 0)
    (hbuf : r.read_and_unused = [])
    (hone : Receiver.read_one saveOk r f = ⟨.panicked, r', f, []⟩) :
    (Receiver.recv_until saveOk pdm fuel r f).res = .panicked := by
  cases fuel with
  | zero => exact absurd rfl hfuel
  | succ m =>
    rw [Receiver.recv_until, Receiver.recv_until_loop]
    simp [hbuf, hone, Step.bind_panicked]

/-- Claim C3 (amended): every public receive operation (`recv`,
`recv_timeout`, `recv_batch`, `recv_batch_timeout`, `recv_until`), when it
performs a read at all (nonempty request, nonzero timeout budget or fuel),
propagates to the caller as an error value both an I/O error arising while
reading the 4-byte record header and an error of the durable state save
during segment advance; however, an I/O error occurring while reading the
payload bytes of a record causes a panic (`expect("poisoned queue")`)
rather than an error return — again in all five operations. -/
theorem recv_error_propagation_amended (saveOk : Bool) (n budget fuel : Nat)
    (pdm : Option (List Nat) → Bool) (r : ReceiverS) (f : Files)
    (hbuf : r.read_and_unused = []) (hmh : r.maybe_header = none) :
    (readExact f r.fSeg r.fPos 4 = .ioError →
      (Receiver.recv saveOk r f).res = .ioError
      ∧ (budget ≠ 0 → (Receiver.recv_timeout saveOk budget r f).res = .ioError)
      ∧ (n ≠ 0 → (Receiver.recv_batch saveOk n r f).res = .ioError)
      ∧ (n ≠ 0 → budget ≠ 0 →
          (Receiver.recv_batch_timeout saveOk n budget r f).res = .ioError)
      ∧ (fuel ≠ 0 → (Receiver.recv_until saveOk pdm fuel r f).res = .ioError))
    ∧ (readExact f r.fSeg r.fPos 4 = .ok HEADER_EOF →
      (Receiver.recv false r f).res = .ioError
      ∧ (budget ≠ 0 → (Receiver.recv_timeout false budget r f).res = .ioError)
      ∧ (n ≠ 0 → (Receiver.recv_batch false n r f).res = .ioError)
      ∧ (n ≠ 0 → budget ≠ 0 →
          (Receiver.recv_batch_timeout false n budget r f).res = .ioError)
      ∧ (fuel ≠ 0 → (Receiver.recv_until false pdm fuel r f).res = .ioError))
    ∧ (∀ hdr, readExact f r.fSeg r.fPos 4 = .ok hdr → hdr ≠ HEADER_EOF →
        readExact f r.fSeg (r.fPos + 4) (Header.decode hdr) = .ioError →
      (Receiver.recv saveOk r f).res = .panicked
      ∧ (budget ≠ 0 → (Receiver.recv_timeout saveOk budget r f).res = .panicked)
      ∧ (n ≠ 0 → (Receiver.recv_batch saveOk n r f).res = .panicked)
      ∧ (n ≠ 0 → budget ≠ 0 →
          (Receiver.recv_batch_timeout saveOk n budget r f).res = .panicked)
      ∧ (fuel ≠ 0 →
          (Receiver.recv_until saveOk pdm fuel r f).res = .panicked)) := by
  refine ⟨fun herr => ?_, fun heof => ?_, fun hdr hok hne herr => ?_⟩
  · have hone := read_one_hdr_ioError saveOk hmh herr
    exact ⟨recv_prop_io saveOk hbuf hone,
      fun hb => recv_timeout_prop_io saveOk budget hb hbuf hone,
      fun hn => recv_batch_prop_io saveOk n hn hbuf hone,
      fun hn hb => recv_batch_timeout_prop_io saveOk n budget hn hb hbuf hone,
      fun hfuel => recv_until_prop_io saveOk pdm fuel hfuel hbuf hone⟩
  · have hone := read_one_save_fail hmh heof
    exact ⟨recv_prop_io false hbuf hone,
      fun hb => recv_timeout_prop_io false budget hb hbuf hone,
      fun hn => recv_batch_prop_io false n hn hbuf hone,
      fun hn hb => recv_batch_timeout_prop_io false n budget hn hb hbuf hone,
      fun hfuel => recv_until_prop_io false pdm fuel hfuel hbuf hone⟩
  · have hone := read_one_payload_panics saveOk hdr hmh hok hne herr
    exact ⟨recv_prop_panic saveOk hbuf hone,
      fun hb => recv_timeout_prop_panic saveOk budget hb hbuf hone,
      fun hn => recv_batch_prop_panic saveOk n hn hbuf hone,
      fun hn hb => recv_batch_timeout_prop_panic saveOk n budget hn hb hbuf hone,
      fun hfuel => recv_until_prop_panic saveOk pdm fuel hfuel hbuf hone⟩

/-- Witness for the amended C3: each kind of failure exercised at a
concrete error-injecting queue, across the public receive operations. -/
theorem recv_error_propagation_amended_witness :
    (Receiver.recv true ⟨⟨0, 0⟩, 0, 0, none, []⟩ fErrHdr).res = .ioError
    ∧ (Receiver.recv_timeout true 1 ⟨⟨0, 0⟩, 0, 0, none, []⟩ fErrHdr).res = .ioError
    ∧ (Receiver.recv_batch true 1 ⟨⟨0, 0⟩, 0, 0, none, []⟩ fErrHdr).res = .ioError
    ∧ (Receiver.recv_batch_timeout true 1 1 ⟨⟨0, 0⟩, 0, 0, none, []⟩ fErrHdr).res
        = .ioError
    ∧ (Receiver.recv_until true (fun _ => true) 1
        ⟨⟨0, 0⟩, 0, 0, none, []⟩ fErrHdr).res = .ioError
    ∧ (Receiver.recv false ⟨⟨0, 0⟩, 0, 0, none, []⟩ fEOFonly).res = .ioError
    ∧ (Receiver.recv_until false (fun _ => true) 1
        ⟨⟨0, 0⟩, 0, 0, none, []⟩ fEOFonly).res = .ioError
    ∧ (Receiver.recv true ⟨⟨0, 0⟩, 0, 0, none, []⟩ fErr).res = .panicked
    ∧ (Receiver.recv_batch true 1 ⟨⟨0, 0⟩, 0, 0, none, []⟩ fErr).res = .panicked :=
  have h1 := recv_error_propagation_amended true 1 1 1 (fun _ => true)
    ⟨⟨0, 0⟩, 0, 0, none, []⟩ fErrHdr rfl rfl
  have h2 := recv_error_propagation_amended true 1 1 1 (fun _ => true)
    ⟨⟨0, 0⟩, 0, 0, none, []⟩ fEOFonly rfl rfl
  have h3 := recv_error_propagation_amended true 1 1 1 (fun _ => true)
    ⟨⟨0, 0⟩, 0, 0, none, []⟩ fErr rfl rfl
  ⟨(h1.1 (by decide)).1,
   (h1.1 (by decide)).2.1 (by decide),
   (h1.1 (by decide)).2.2.1 (by decide),
   (h1.1 (by decide)).2.2.2.1 (by decide) (by decide),
   (h1.1 (by decide)).2.2.2.2 (by decide),
   (h2.2.1 (by decide)).1,
   (h2.2.1 (by decide)).2.2.2.2 (by decide),
   (h3.2.2 [1, 0, 0, 0] (by decide) (by decide) (by decide)).1,
   (h3.2.2 [1, 0, 0, 0] (by decide) (by decide) (by decide)).2.2.1 (by decide)⟩

/-- The loop of `recv_until` only ever applies the predicate to `some`
values, so predicates agreeing there give identical runs. -/
theorem recv_until_loop_congr (saveOk : Bool) (p q : Option (List Nat) → Bool)
    (hagree : ∀ x, p (some x) = q (some x)) :
    ∀ fuel n_read r f, Receiver.recv_until_loop saveOk p fuel n_read r f
      = Receiver.recv_until_loop saveOk q fuel n_read r f := by
  intro fuel
  induction fuel with
  | zero =>
    intro n_read r f
    rfl
  | succ fuel ih =>
    intro n_read r f
    rw [Receiver.recv_until_loop, Receiver.recv_until_loop]
    apply congrArg (Step.bind _)
    funext u r1 f1
    cases hi : r1.read_and_unused.get? n_read with
    | none => rfl
    | some item =>
      dsimp only
      rw [hagree item]
      by_cases hq : q (some item)
      · simp [hq]
      · simp [hq, ih]

/-- Claim C9: the result of the initial `predicate(None)` call in
`recv_until` is discarded: two predicates agreeing on real elements give
identical outcomes regardless of their value at `None`, and with an empty
buffer and no data the call suspends in `read_one` (it can never return
early with the queue untouched because of the initialization call). -/
theorem recv_until_init_discarded (p q : Option (List Nat) → Bool)
    (fuel : Nat) (saveOk : Bool) (r : ReceiverS) (f : Files)
    (hagree : ∀ x, p (some x) = q (some x))
    (hbuf : r.read_and_unused = []) (hmh : r.maybe_header = none)
    (hblock : readExact f r.fSeg r.fPos 4 = .blocked) :
    Receiver.recv_until saveOk p fuel r f = Receiver.recv_until saveOk q fuel r f
    ∧ (Receiver.recv_until saveOk p fuel r f).res = .blocked := by
  constructor
  · exact recv_until_loop_congr saveOk p q hagree fuel 0 r f
  · cases fuel with
    | zero => rfl
    | succ fuel =>
      have hone : Receiver.read_one saveOk r f = ⟨.blocked, r, f, []⟩ := by
        rw [Receiver.read_one, Receiver.read_header]
        simp [hmh, hblock, Step.bind_blocked]
      rw [Receiver.recv_until, Receiver.recv_until_loop]
      simp [hbuf, hone, Step.bind_blocked]

/-- Witness for C9: a predicate constantly `true` at `None` and one that is
`false` at `None` behave identically, and on an empty queue the call
suspends. -/
theorem recv_until_init_discarded_witness :
    (Receiver.recv_until true (fun _ => true) 5 ⟨⟨0, 0⟩, 0, 0, none, []⟩ emptyFiles
      = Receiver.recv_until true (fun o => o.isSome) 5 ⟨⟨0, 0⟩, 0, 0, none, []⟩ emptyFiles)
    ∧ (Receiver.recv_until true (fun _ => true) 5
        ⟨⟨0, 0⟩, 0, 0, none, []⟩ emptyFiles).res = .blocked :=
  recv_until_init_discarded (fun _ => true) (fun o => o.isSome) 5 true
    ⟨⟨0, 0⟩, 0, 0, none, []⟩ emptyFiles (fun x => rfl) rfl rfl (by decide)

/-- The result of `recv` on an empty buffer with a record available. -/
theorem recv_res_rec {r : ReceiverS} {f : Files} {p : List Nat}
    (hbuf : r.read_and_unused = []) (hmh : r.maybe_header = none)
    (hrec : recordAt f r.fSeg r.fPos p) :
    (Receiver.recv true r f).res = .ok ⟨4 + p.length, p⟩ := by
  have hone := read_one_rec true hmh hrec
  rw [Receiver.recv]
  simp [hbuf, hone, Step.bind_ok]

/-- A queue holding the records of `[1]` and `[2]` (both already read into
the `read_and_unused` buffer in the counterexample state, the follower
standing after both records). -/
def fCex : Files :=
  fun k =>
    if k = 0 then ((Header.encode 1 ++ [1]) ++ (Header.encode 1 ++ [2])).map some
    else []

/-- Claim C4 counterexample: with two elements in `read_and_unused`
(reachable, e.g., via a cancelled `recv_batch` whose two `read_one`s had
completed), the guard produced by `recv()` and dropped without `commit`
does not make the next `recv()` return the same payload: the rollback
seek happens, but the next `recv()` pops the next buffered element
`[2]`, not `[1]` again. -/
theorem rollback_redelivery_fails_cex :
    Receiver.recv true ⟨⟨0, 0⟩, 0, 10, none, [[1], [2]]⟩ fCex
      = ⟨.ok ⟨5, [1]⟩, ⟨⟨0, 0⟩, 0, 10, none, [[2]]⟩, fCex, []⟩
    ∧ (RecvGuard.drop ⟨5, [1]⟩ (⟨⟨0, 0⟩, 0, 10, none, [[2]]⟩ : ReceiverS)).fPos = 5
    ∧ (Receiver.recv true
        (RecvGuard.drop ⟨5, [1]⟩ (⟨⟨0, 0⟩, 0, 10, none, [[2]]⟩ : ReceiverS)) fCex).res
      = .ok ⟨5, [2]⟩
    ∧ ((RRes.ok ⟨5, [2]⟩ : RRes (RecvGuard (List Nat))) ≠ .ok ⟨5, [1]⟩) :=
  ⟨rfl, rfl, rfl, by decide⟩

/-- Claim C4 (amended): `state.position` advances (by the guard's `len`)
exactly when `commit` is invoked — committing any guard adds `len` to
`state.position`, while dropping it leaves `state.position` unchanged and
seeks the tail follower backward by `len`.  After a drop, the next
`recv()` returns the same payload when the guard's payload was freshly
read from disk or was the sole buffered element (whose record ends at the
follower's offset); if more than one element was buffered, the rollback
seek still happens but the next `recv()` returns the next buffered
payload instead of the same one. -/
theorem recv_guard_commit_rollback (r : ReceiverS) (f : Files) (p : List Nat)
    (hmh : r.maybe_header = none) :
    (∀ (g : RecvGuard (List Nat)) (rc : ReceiverS),
        (RecvGuard.commit g rc).state.position = rc.state.position + g.len
        ∧ (RecvGuard.drop g rc).state.position = rc.state.position
        ∧ (RecvGuard.drop g rc).fPos = rc.fPos - g.len)
    ∧ ((r.read_and_unused = [] ∧ recordAt f r.fSeg r.fPos p)
        ∨ (r.read_and_unused = [p] ∧ 4 + p.length ≤ r.fPos
            ∧ recordAt f r.fSeg (r.fPos - (4 + p.length)) p) →
      ∃ r1, Receiver.recv true r f = ⟨.ok ⟨4 + p.length, p⟩, r1, f, []⟩
        ∧ r1.state = r.state
        ∧ (RecvGuard.commit ⟨4 + p.length, p⟩ r1).state.position
            = r.state.position + (4 + p.length)
        ∧ (RecvGuard.drop ⟨4 + p.length, p⟩ r1).state.position = r.state.position
        ∧ (RecvGuard.drop ⟨4 + p.length, p⟩ r1).fPos = r1.fPos - (4 + p.length)
        ∧ (Receiver.recv true (RecvGuard.drop ⟨4 + p.length, p⟩ r1) f).res
            = .ok ⟨4 + p.length, p⟩)
    ∧ (∀ q rest, r.read_and_unused = p :: q :: rest →
      ∃ r1, Receiver.recv true r f = ⟨.ok ⟨4 + p.length, p⟩, r1, f, []⟩
        ∧ r1.state = r.state
        ∧ (Receiver.recv true (RecvGuard.drop ⟨4 + p.length, p⟩ r1) f).res
            = .ok ⟨4 + q.length, q⟩) := by
  refine ⟨fun g rc => ⟨rfl, rfl, rfl⟩, fun hcase => ?_, fun q rest hb => ?_⟩
  · rcases hcase with ⟨hbuf, hrec⟩ | ⟨hbuf, hge, hrec⟩
    · refine ⟨{ r with
          fPos := r.fPos + (4 + p.length),
          maybe_header := none,
          read_and_unused := [] }, ?_, rfl, rfl, rfl, rfl, ?_⟩
      · have hone := read_one_rec true hmh hrec
        rw [Receiver.recv]
        simp [hbuf, hone, Step.bind_ok]
      · refine recv_res_rec rfl rfl ?_
        show recordAt f r.fSeg (r.fPos + (4 + p.length) - (4 + p.length)) p
        rw [Nat.add_sub_cancel]
        exact hrec
    · refine ⟨{ r with read_and_unused := [] }, ?_, rfl, rfl, rfl, rfl, ?_⟩
      · rw [Receiver.recv]
        simp [hbuf]
      · exact recv_res_rec rfl hmh hrec
  · refine ⟨{ r with read_and_unused := q :: rest }, ?_, rfl, ?_⟩
    · rw [Receiver.recv]
      simp [hb]
    · rfl

/-- Claim C5: a successful `recv_batch(n)` returns exactly `n` payloads,
taken in FIFO order from the front of `read_and_unused` after topping the
buffer up with `n - read_and_unused.len()` calls to `read_one`, and the
guard's `len` is the sum of `4 + payload length` over the returned
payloads. -/
theorem recv_batch_exact (n : Nat) (r : ReceiverS) (f : Files) (ps : List (List Nat))
    (hmh : r.maybe_header = none) (hseg : r.fSeg = r.state.segment)
    (hps : ps.length = n - r.read_and_unused.length)
    (hrest : Rest f r.fSeg r.fPos ps) :
    ∃ r' f' t, Receiver.recv_batch true n r f
        = ⟨.ok ⟨sumRecordLens ((r.read_and_unused ++ ps).take n),
              (r.read_and_unused ++ ps).take n⟩, r', f', t⟩
      ∧ ((r.read_and_unused ++ ps).take n).length = n
      ∧ r'.read_and_unused = (r.read_and_unused ++ ps).drop n := by
  obtain ⟨r1, f1, t, hn, hbuf1⟩ := read_n_ok hmh hseg hrest
  refine ⟨{ r1 with read_and_unused := (r.read_and_unused ++ ps).drop n },
    f1, t, ?_, ?_, rfl⟩
  · rw [Receiver.recv_batch, ← hps, hn, Step.bind_ok]
    simp [drain_eq, hbuf1]
  · rw [List.length_take, List.length_append]
    omega

/-- A queue holding exactly the records of `[5, 6]` and `[9]`. -/
def fTwo : Files :=
  fun k =>
    if k = 0 then ((Header.encode 2 ++ [5, 6]) ++ (Header.encode 1 ++ [9])).map some
    else []

/-- Witness for the amended C4 at concrete queues: the commit/rollback
laws for a concrete guard, the fresh-read same-payload case, and the
multi-buffered different-payload case. -/
theorem recv_guard_commit_rollback_witness :
    ((RecvGuard.commit ⟨5, [1]⟩ (⟨⟨0, 0⟩, 0, 10, none, []⟩ : ReceiverS)).state.position
        = (⟨⟨0, 0⟩, 0, 10, none, []⟩ : ReceiverS).state.position + 5
      ∧ (RecvGuard.drop ⟨5, [1]⟩ (⟨⟨0, 0⟩, 0, 10, none, []⟩ : ReceiverS)).state.position
        = (⟨⟨0, 0⟩, 0, 10, none, []⟩ : ReceiverS).state.position
      ∧ (RecvGuard.drop ⟨5, [1]⟩ (⟨⟨0, 0⟩, 0, 10, none, []⟩ : ReceiverS)).fPos
        = (⟨⟨0, 0⟩, 0, 10, none, []⟩ : ReceiverS).fPos - 5)
    ∧ (∃ r1, Receiver.recv true ⟨⟨0, 0⟩, 0, 0, none, []⟩ fTwo
          = ⟨.ok ⟨4 + ([5, 6] : List Nat).length, [5, 6]⟩, r1, fTwo, []⟩
        ∧ r1.state = (⟨0, 0⟩ : QueueState)
        ∧ (RecvGuard.commit ⟨4 + ([5, 6] : List Nat).length, [5, 6]⟩ r1).state.position
            = 0 + (4 + ([5, 6] : List Nat).length)
        ∧ (RecvGuard.drop ⟨4 + ([5, 6] : List Nat).length, [5, 6]⟩ r1).state.position = 0
        ∧ (RecvGuard.drop ⟨4 + ([5, 6] : List Nat).length, [5, 6]⟩ r1).fPos
            = r1.fPos - (4 + ([5, 6] : List Nat).length)
        ∧ (Receiver.recv true
              (RecvGuard.drop ⟨4 + ([5, 6] : List Nat).length, [5, 6]⟩ r1) fTwo).res
            = .ok ⟨4 + ([5, 6] : List Nat).length, [5, 6]⟩)
    ∧ (∃ r1, Receiver.recv true ⟨⟨0, 0⟩, 0, 10, none, [[1], [2]]⟩ fCex
          = ⟨.ok ⟨4 + ([1] : List Nat).length, [1]⟩, r1, fCex, []⟩
        ∧ r1.state = (⟨0, 0⟩ : QueueState)
        ∧ (Receiver.recv true
              (RecvGuard.drop ⟨4 + ([1] : List Nat).length, [1]⟩ r1) fCex).res
            = .ok ⟨4 + ([2] : List Nat).length, [2]⟩) :=
  ⟨(recv_guard_commit_rollback ⟨⟨0, 0⟩, 0, 10, none, []⟩ fTwo [1] rfl).1
      ⟨5, [1]⟩ ⟨⟨0, 0⟩, 0, 10, none, []⟩,
   (recv_guard_commit_rollback ⟨⟨0, 0⟩, 0, 0, none, []⟩ fTwo [5, 6] rfl).2.1
      (Or.inl ⟨rfl, ⟨by decide, by unfold bytesAt; decide⟩⟩),
   (recv_guard_commit_rollback ⟨⟨0, 0⟩, 0, 10, none, [[1], [2]]⟩ fCex [1] rfl).2.2
      [2] [] rfl⟩

/-- Witness for C5 at a concrete queue. -/
theorem recv_batch_exact_witness :
    ∃ r' f' t, Receiver.recv_batch true 2 ⟨⟨0, 0⟩, 0, 0, none, []⟩ fTwo
        = ⟨.ok ⟨sumRecordLens (([] ++ [[5, 6], [9]]).take 2),
              ([] ++ [[5, 6], [9]]).take 2⟩, r', f', t⟩
      ∧ (([] ++ [[5, 6], [9]]).take 2).length = 2
      ∧ r'.read_and_unused = ([] ++ [[5, 6], [9]]).drop 2 :=
  recv_batch_exact 2 ⟨⟨0, 0⟩, 0, 0, none, []⟩ fTwo [[5, 6], [9]] rfl rfl (by decide)
    (Rest.cons _ _ _ _ _ ⟨by decide, by unfold bytesAt; decide⟩
      (Rest.cons _ _ _ _ _ ⟨by decide, by unfold bytesAt; decide⟩ (Rest.nil _ _ _)))
